import Mathlib

set_option linter.unusedVariables false

/-! Shallow embedding of the `S3Represent` family from `modules/s3/s3fields.py`
(classes `S3Represent` and `S3RepresentLazy`).

Modelling conventions:
* Python values that occur as lookup keys are `Val` (None, int, or str);
  raw stored values (which may be lists) are `PyVal`.
* The mutable attributes of an `S3Represent` instance (`theset`, `rows`,
  `queries`, `lazy`) form the explicit state `RState`, threaded through all
  operations.  `fetchLog` is a ghost field recording the key list of every
  `_lookup_rows` invocation, so that fetch counts are directly observable.
* Python dicts are association lists kept in insertion order (`setA`
  overwrites in place, appends new keys at the end).  Where CPython set/dict
  enumeration order is unspecified (Python 2), the model fixes
  first-occurrence order (`dedupFirst`).
* The configuration (constructor arguments plus the defaults resolved by
  `_setup`) is the structure `Represent`; the embedding models the
  post-`_setup` instance, with `_setup`'s default hierarchy template
  `"%s > %s"` as `defaultHtemplate`.
* Python exceptions are `Except PyErr`; `TypeError` caught and re-raised as
  `ValueError` in `multiple`/`bulk` is emitted as `valueError` directly.
* The database collaborator `current.db(query).select` is the row list of
  `Table`; the subclass hook `lookup_rows` is the base `_lookup_rows`
  (`custom_lookup = False`, as in the base class).
* `int(v)` coercion of string keys is `String.toInt?`; the translator `T`
  is the function `tr`, applied when `translate` is set (the `lazyT` check
  is dropped since translated values are plain strings here).
-/

inductive Val where
  | vnone
  | vint (n : Int)
  | vstr (s : String)
deriving DecidableEq

/-- An element of a multi-value list: a scalar or a nested list of scalars
(two levels cover every input the code distinguishes). -/
inductive PyItem where
  | scal (v : Val)
  | list (xs : List Val)
deriving DecidableEq

/-- A raw stored value: a scalar or a list (of scalars or nested lists). -/
inductive PyVal where
  | scal (v : Val)
  | list (xs : List PyItem)
deriving DecidableEq

inductive PyErr where
  | typeError
  | valueError
deriving DecidableEq

/-- A rendered label component: a plain string or a hyperlink (`A(...)`). -/
inductive OutAtom where
  | str (s : String)
  | link (href : String) (txt : String)
deriving DecidableEq

/-- A rendered representation: string, link, or a `TAG[""]` sequence. -/
inductive Out where
  | str (s : String)
  | link (href : String) (txt : String)
  | tag (xs : List OutAtom)
deriving DecidableEq

def atomOut : OutAtom → Out
  | OutAtom.str s => Out.str s
  | OutAtom.link h t => Out.link h t

/-- A row of the lookup table: its key-field value plus the display fields
(web2py `Row`; a field holding Python `None` is `Option.none`). -/
structure Row where
  key : Val
  attrs : List (String × Option String)
deriving DecidableEq

/-- The `S3Hierarchy` collaborator: configuration flag and the parent map. -/
structure Hierarchy where
  config : Bool
  parents : List (Val × Val)
deriving DecidableEq

/-- The lookup table handle: contents, hierarchy collaborator, and whether
`ogetattr(table, pkey)` raises `AttributeError` (key field missing from the
schema). -/
structure Table where
  rows : List Row
  keyAttrMissing : Bool
  hier : Hierarchy
deriving DecidableEq

/-- The label strategy fixed by `_setup`: string template (`slabels`),
external renderer (`clabels`), or the default field join. -/
inductive LabelsCfg where
  | fieldJoin
  | template (f : Row → String)
  | renderer (f : Row → String)

/-- Post-`_setup` configuration of an `S3Represent` instance. -/
structure Represent where
  table : Option Table
  fields : List String
  labels : LabelsCfg
  list_type : Bool
  hierarchy : Bool
  translate : Bool
  tr : String → String
  linkto : Option String
  show_link : Bool
  default : String
  none : String
  field_sep : String
  htemplate : String → String → String

/-- The template `"%s > %s"` installed by `_setup` when `hierarchy` is not a
string. -/
def defaultHtemplate (p o : String) : String := p ++ " > " ++ o

/-- Mutable state of one representer instance (plus the ghost `fetchLog`). -/
structure RState where
  theset : List (Val × String)
  rows : List (Val × Row)
  queries : Nat
  fetchLog : List (List Val)
  lazy : List PyVal
deriving DecidableEq

def RState.empty : RState := ⟨[], [], 0, [], []⟩

/-! ### Association-list operations modelling Python dicts -/

def lookupA {κ α : Type} [DecidableEq κ] : List (κ × α) → κ → Option α
  | [], _ => Option.none
  | (k', v) :: m, k => if k' = k then some v else lookupA m k

def setA {κ α : Type} [DecidableEq κ] : List (κ × α) → κ → α → List (κ × α)
  | [], k, v => [(k, v)]
  | (k', v') :: m, k, v => if k' = k then (k, v) :: m else (k', v') :: setA m k v

def removeA {κ α : Type} [DecidableEq κ] : List (κ × α) → κ → List (κ × α)
  | [], _ => []
  | (k', v') :: m, k => if k' = k then m else (k', v') :: removeA m k

def dedupFirstAux : List Val → List Val → List Val
  | _, [] => []
  | seen, v :: vs =>
      if seen.any (fun x => x = v) then dedupFirstAux seen vs
      else v :: dedupFirstAux (v :: seen) vs

/-- `list(set(xs))`, with first-occurrence order fixed by the model. -/
def dedupFirst (l : List Val) : List Val := dedupFirstAux [] l

/-! ### Value coercion and truthiness -/

def Val.isTruthy : Val → Bool
  | Val.vnone => false
  | Val.vint n => n ≠ 0
  | Val.vstr s => s ≠ ""

def pyTruthy : PyVal → Bool
  | PyVal.scal v => v.isTruthy
  | PyVal.list xs => !xs.isEmpty

/-- `s3_unicode` on label strings (identity on strings). -/
def s3_unicode (s : String) : String := s

/-- `s3_unicode` on a key value, as used for the `[id]` substitution. -/
def valToStr : Val → String
  | Val.vnone => "None"
  | Val.vint n => toString n
  | Val.vstr s => s

/-- Key normalization in `_lookup`: strings are coerced with `int()` when a
lookup table is configured, falling back to the original string. -/
def normVal (hasTable : Bool) (v : Val) : Val :=
  match v with
  | Val.vstr s =>
      if hasTable then
        match s.toInt? with
        | some n => Val.vint n
        | Option.none => Val.vstr s
      else Val.vstr s
  | x => x

def getAttr (row : Row) (f : String) : Option String :=
  (lookupA row.attrs f).getD Option.none

/-! ### `represent_row` and `link` -/

/-- `S3Represent.represent_row`: template / renderer / default field join,
optional translation, optional hierarchy prefix composition. -/
def Represent.represent_row (r : Represent) (row : Row) (pfx : Option String) :
    String :=
  let v : String :=
    match r.labels with
    | LabelsCfg.template f => f row
    | LabelsCfg.renderer f => f row
    | LabelsCfg.fieldJoin =>
        let vals := r.fields.filterMap (fun f =>
          match getAttr row f with
          | Option.none => Option.none
          | some s => if s = "" then Option.none else some s)
        if vals.isEmpty then r.none else String.intercalate r.field_sep vals
  let output := if r.translate then r.tr v else v
  match pfx with
  | some p => if p ≠ "" && r.hierarchy then r.htemplate p output else output
  | Option.none => output

/-- `S3Represent.link`: wrap the label in a hyperlink when `linkto` is set,
substituting both `[id]` and its percent-encoded form. -/
def Represent.link (r : Represent) (k : Val) (v : String) : OutAtom :=
  match r.linkto with
  | some url =>
      let ks := valToStr k
      OutAtom.link ((url.replace "[id]" ks).replace "%5Bid%5D" ks) v
  | Option.none => OutAtom.str v

/-! ### The fetch collaborator `_lookup_rows` -/

/-- `S3Represent._lookup_rows`: one bulk select of all rows whose key is in
`wanted`; increments `queries` and (ghost) records the requested key list. -/
def Table._lookup_rows (t : Table) (wanted : List Val) (s : RState) :
    List Row × RState :=
  (t.rows.filter (fun row => wanted.any (fun x => x = row.key)),
   { s with queries := s.queries + 1, fetchLog := s.fetchLog ++ [wanted] })

/-! ### `_lookup` -/

/-- Accumulator of the first loop of `_lookup` (`keys`, `items`, `lookup`). -/
structure ScanAcc where
  keys : List (Val × Val)
  items : List (Val × String)
  lkp : List (Val × Bool)
deriving DecidableEq

def scanStep (r : Represent) (theset : List (Val × String)) (acc : ScanAcc)
    (rawv : Val) : ScanAcc :=
  let v := normVal r.table.isSome rawv
  let keys := setA acc.keys v rawv
  if v = Val.vnone then
    { acc with keys := keys, items := setA acc.items rawv r.none }
  else
    match lookupA theset v with
    | some lbl => { acc with keys := keys, items := setA acc.items rawv lbl }
    | Option.none => { acc with keys := keys, lkp := setA acc.lkp v true }

def scanValues (r : Represent) (theset : List (Val × String))
    (values : List Val) : ScanAcc :=
  values.foldl (scanStep r theset) ⟨[], [], []⟩

def Hierarchy.parent (h : Hierarchy) (v : Val) : Option Val :=
  lookupA h.parents v

/-- The recursive `lookup_parent` closure: enqueue every uncached, not yet
pending ancestor (flag `False`).  `fuel` only bounds the recursion; with
`fuel = h.parents.length + 1` it never runs out (each step adds a new key
from the finite parent map, matching the Python recursion). -/
def lookupParentAux (h : Hierarchy) (theset : List (Val × String)) :
    Nat → List (Val × Bool) → Val → List (Val × Bool)
  | 0, lkp, _ => lkp
  | fuel + 1, lkp, node =>
    match h.parent node with
    | some p =>
        if p.isTruthy && (lookupA theset p).isNone && (lookupA lkp p).isNone
        then lookupParentAux h theset fuel (setA lkp p false) p
        else lkp
    | Option.none => lkp

/-- `for node_id in lookup.keys(): lookup_parent(node_id)` over the snapshot
of the originally pending keys (Python 2 `keys()` is a list copy). -/
def addAncestors (h : Hierarchy) (theset : List (Val × String))
    (lkp : List (Val × Bool)) : List (Val × Bool) :=
  (lkp.map (fun p => p.1)).foldl
    (fun l node => lookupParentAux h theset (h.parents.length + 1) l node) lkp

/-- State threaded through the given-rows pass and the fetch pass. -/
structure LkAcc where
  theset : List (Val × String)
  rowsC : List (Val × Row)
  items : List (Val × String)
  lkp : List (Val × Bool)

def keysGet (keys : List (Val × Val)) (k : Val) : Val :=
  (lookupA keys k).getD k

/-- `_lookup`'s pass over caller-supplied rows: cache each row, represent it
if uncached, and serve it if it was pending (`lookup.pop`). -/
def useGivenRows (r : Represent) (keys : List (Val × Val)) (acc : LkAcc)
    (given : List Row) : LkAcc :=
  given.foldl (fun a row =>
    let k := row.key
    let rowsC := setA a.rowsC k row
    let theset :=
      match lookupA a.theset k with
      | some _ => a.theset
      | Option.none => setA a.theset k (r.represent_row row Option.none)
    let popped := lookupA a.lkp k
    let lkp := removeA a.lkp k
    let items :=
      match popped with
      | some true => setA a.items (keysGet keys k) ((lookupA theset k).getD "")
      | _ => a.items
    ⟨theset, rowsC, items, lkp⟩) acc

/-- `S3Represent._represent_path`: recursively compose the hierarchy path,
reusing cached ancestor labels and caching the result.  Returns the label and
the updated `theset`.  `fuel` bounds the recursion (the Python code is
unguarded against cyclic parent data; acyclic chains never exhaust
`rowsD.length + 1`). -/
def representPath (r : Represent) (h : Hierarchy) (rowsD : List (Val × Row)) :
    Nat → List (Val × String) → Val → Row → String × List (Val × String)
  | 0, theset, _, row => (r.represent_row row Option.none, theset)
  | fuel + 1, theset, value, row =>
    match lookupA theset value with
    | some lbl => (lbl, theset)
    | Option.none =>
      let pr : Option String × List (Val × String) :=
        match h.parent value with
        | some p =>
            if p.isTruthy then
              match lookupA theset p with
              | some lbl => (some lbl, theset)
              | Option.none =>
                match lookupA rowsD p with
                | some prow =>
                    let res := representPath r h rowsD fuel theset p prow
                    (some res.1, res.2)
                | Option.none => (Option.none, theset)
            else (Option.none, theset)
        | Option.none => (Option.none, theset)
      let result := r.represent_row row pr.1
      (result, setA pr.2 value result)

/-- Triple (`lookup`, `items`, `theset`) while consuming fetched rows. -/
structure Phase3 where
  lkp : List (Val × Bool)
  items : List (Val × String)
  theset : List (Val × String)

/-- Fetched-row consumption in hierarchy mode:
`if lookup.pop(k, None): items[...] = represent_path(...)`. -/
def hierStep (r : Represent) (h : Hierarchy) (rowsD : List (Val × Row))
    (keys : List (Val × Val)) (st : Phase3) (kr : Val × Row) : Phase3 :=
  match lookupA st.lkp kr.1 with
  | some true =>
      let res := representPath r h rowsD (rowsD.length + 1) st.theset kr.1 kr.2
      { lkp := removeA st.lkp kr.1,
        items := setA st.items (keysGet keys kr.1) res.1,
        theset := res.2 }
  | some false => { st with lkp := removeA st.lkp kr.1 }
  | Option.none => st

/-- Fetched-row consumption without hierarchy:
`lookup.pop(k, None); items[...] = theset[k] = represent_row(row)`. -/
def plainStep (r : Represent) (keys : List (Val × Val)) (st : Phase3)
    (kr : Val × Row) : Phase3 :=
  let lbl := r.represent_row kr.2 Option.none
  { lkp := removeA st.lkp kr.1,
    items := setA st.items (keysGet keys kr.1) lbl,
    theset := setA st.theset kr.1 lbl }

/-- The fetch part of `_lookup`: one `lookup_rows` call for all still-pending
keys, then represent every fetched row, then report leftovers as default. -/
def fetchPhase (r : Represent) (t : Table) (hOpt : Option Hierarchy)
    (keys : List (Val × Val)) (acc : LkAcc) (s : RState) :
    List (Val × String) × RState :=
  let wanted := acc.lkp.map (fun p => p.1)
  let fs := t._lookup_rows wanted s
  let rowsD := fs.1.foldl (fun m row => setA m row.key row) []
  let rowsC := rowsD.foldl (fun m kr => setA m kr.1 kr.2) acc.rowsC
  let tri :=
    match hOpt with
    | some h => rowsD.foldl (hierStep r h rowsD keys) ⟨acc.lkp, acc.items, acc.theset⟩
    | Option.none => rowsD.foldl (plainStep r keys) ⟨acc.lkp, acc.items, acc.theset⟩
  let items2 := tri.lkp.foldl (fun its p => setA its (keysGet keys p.1) r.default)
    tri.items
  (items2, { fs.2 with theset := tri.theset, rows := rowsC })

/-- `S3Represent._lookup`: serve cached keys, enqueue hierarchy ancestors,
use caller-supplied rows, fetch the rest in one bulk call, and default any
key still unresolved. -/
def Represent._lookup (r : Represent) (s : RState) (values : List Val)
    (rowsArg : Option (List Row)) : List (Val × String) × RState :=
  let a := scanValues r s.theset values
  match r.table with
  | Option.none => (a.items, s)
  | some t =>
    if a.lkp.isEmpty then (a.items, s)
    else
      let hOpt := if r.hierarchy && t.hier.config then some t.hier else Option.none
      let lkp1 :=
        match hOpt with
        | some h => addAncestors h s.theset a.lkp
        | Option.none => a.lkp
      if t.keyAttrMissing then (a.items, s)
      else
        let acc0 : LkAcc := ⟨s.theset, s.rows, a.items, lkp1⟩
        let acc1 :=
          match rowsArg with
          | some given => if given.isEmpty then acc0 else useGivenRows r a.keys acc0 given
          | Option.none => acc0
        if acc1.lkp.isEmpty then
          (acc1.items, { s with theset := acc1.theset, rows := acc1.rowsC })
        else fetchPhase r t hOpt a.keys acc1 s

/-! ### Value extraction for the public entry points -/

/-- The multi-value flattening in `multiple`/`bulk` (`list_type` branch):
strip a top-level `None`, `chain.from_iterable`, `set()`-dedup, re-append
`None`.  A non-iterable scalar raises `TypeError` (also from `None in values`
on a non-list), caught by the caller and re-raised as `ValueError`, which the
model emits directly. -/
def flattenVals : PyVal → Except PyErr (List Val)
  | PyVal.scal _ => Except.error PyErr.valueError
  | PyVal.list xs =>
    let hasnone := xs.any (fun e => e = PyItem.scal Val.vnone)
    let xs1 := if hasnone then xs.filter (fun e => e ≠ PyItem.scal Val.vnone) else xs
    match xs1.mapM (fun e =>
      match e with
      | PyItem.list ys => Except.ok ys
      | PyItem.scal (Val.vstr s) =>
          Except.ok (s.toList.map (fun c => Val.vstr c.toString))
      | PyItem.scal _ => (Except.error PyErr.valueError : Except PyErr (List Val))) with
    | Except.error e => Except.error e
    | Except.ok nested =>
      let dedup := dedupFirst nested.flatten
      Except.ok (if hasnone then dedup ++ [Val.vnone] else dedup)

/-- `values = [values] if type(values) is not list else values`; a nested
list element would later be an unhashable dict key in `_lookup`
(`TypeError`). -/
def getValsNonList : PyVal → Except PyErr (List Val)
  | PyVal.scal u => Except.ok [u]
  | PyVal.list xs =>
    xs.mapM (fun e =>
      match e with
      | PyItem.scal v => Except.ok v
      | PyItem.list _ => (Except.error PyErr.typeError : Except PyErr Val))

/-- Iterating a value in `render_list` (`for v in value`): list elements,
or the characters of a string; scalars are not iterable. -/
def iterVals : PyVal → Except PyErr (List Val)
  | PyVal.list xs =>
    xs.mapM (fun e =>
      match e with
      | PyItem.scal v => Except.ok v
      | PyItem.list _ => (Except.error PyErr.typeError : Except PyErr Val))
  | PyVal.scal (Val.vstr s) => Except.ok (s.toList.map (fun c => Val.vstr c.toString))
  | PyVal.scal _ => Except.error PyErr.typeError

/-! ### Public entry points -/

/-- `S3Represent.multiple`: represent multiple values as one comma-joined
string (or `TAG` of links). -/
def Represent.multiple (r : Represent) (s : RState) (values : PyVal)
    (rowsArg : Option (List Row)) (list_type : Bool) (show_link : Bool) :
    Except PyErr (Out × RState) :=
  let showl := show_link && r.show_link
  let rowsTruthy :=
    match rowsArg with
    | some given => !given.isEmpty
    | Option.none => false
  let valsE : Except PyErr (List Val) :=
    if rowsTruthy && r.table.isSome then
      Except.ok ((rowsArg.getD []).map (fun row => row.key))
    else if r.list_type && list_type then flattenVals values
    else getValsNonList values
  match valsE with
  | Except.error e => Except.error e
  | Except.ok vals =>
    if vals.isEmpty then Except.ok (Out.str r.none, s)
    else
      let is' := r._lookup s vals rowsArg
      if showl then
        Except.ok (Out.tag (List.intersperse (OutAtom.str ", ")
          (vals.map (fun k =>
            match lookupA is'.1 k with
            | some lbl => r.link k (s3_unicode lbl)
            | Option.none => OutAtom.str r.default))), is'.2)
      else
        Except.ok (Out.str (String.intercalate ", "
          (vals.map (fun k =>
            match lookupA is'.1 k with
            | some lbl => s3_unicode lbl
            | Option.none => r.default))), is'.2)

/-- `S3Represent.__call__`: represent a single value. -/
def Represent.call (r : Represent) (s : RState) (value : PyVal)
    (rowArg : Option Row) (show_link : Bool) : Except PyErr (Out × RState) :=
  let showl := show_link && r.show_link
  if r.list_type then
    r.multiple s value
      (match rowArg with | some rw => some [rw] | Option.none => Option.none)
      false show_link
  else
    let value :=
      match rowArg, r.table with
      | some rw, some _ => PyVal.scal rw.key
      | _, _ => value
    if pyTruthy value then
      match value with
      | PyVal.scal v =>
        let rowsArg :=
          match rowArg with
          | some rw => some [rw]
          | Option.none => Option.none
        let is' := r._lookup s [v] rowsArg
        match lookupA is'.1 v with
        | some lbl =>
            Except.ok ((if showl then atomOut (r.link v lbl) else Out.str lbl), is'.2)
        | Option.none => Except.ok (Out.str r.default, is'.2)
      | PyVal.list _ => Except.error PyErr.typeError
    else Except.ok (Out.str r.none, s)

/-- `S3Represent.bulk`: represent multiple values as a value-to-label dict
(individual values for list types), always including the `None` entry. -/
def Represent.bulk (r : Represent) (s : RState) (values : PyVal)
    (rowsArg : Option (List Row)) (list_type : Bool) (show_link : Bool) :
    Except PyErr (List (Val × OutAtom) × RState) :=
  let showl := show_link && r.show_link
  let rowsTruthy :=
    match rowsArg with
    | some given => !given.isEmpty
    | Option.none => false
  let valsE : Except PyErr (List Val × RState) :=
    if rowsTruthy && r.table.isSome then
      let given := rowsArg.getD []
      let rowsC := given.foldl (fun m row => setA m row.key row) s.rows
      Except.ok (dedupFirst (given.map (fun row => row.key)), { s with rows := rowsC })
    else if r.list_type && list_type then
      match flattenVals values with
      | Except.ok vs => Except.ok (vs, s)
      | Except.error e => Except.error e
    else
      match getValsNonList values with
      | Except.ok vs => Except.ok (vs, s)
      | Except.error e => Except.error e
  match valsE with
  | Except.error e => Except.error e
  | Except.ok vs0 =>
    if vs0.1.isEmpty then
      Except.ok ([(Val.vnone, OutAtom.str r.none)], vs0.2)
    else
      let is' := r._lookup vs0.2 vs0.1 rowsArg
      let labels0 :=
        if showl then is'.1.map (fun kv => (kv.1, r.link kv.1 kv.2))
        else is'.1.map (fun kv => (kv.1, OutAtom.str kv.2))
      let labels1 := vs0.1.foldl (fun ls k =>
        match lookupA ls k with
        | some _ => ls
        | Option.none => setA ls k (OutAtom.str r.default)) labels0
      Except.ok (setA labels1 Val.vnone (OutAtom.str r.none), is'.2)

def s3_unicode_atom : OutAtom → String
  | OutAtom.str s => s
  | OutAtom.link href txt => "<a href=" ++ href ++ ">" ++ txt ++ "</a>"

/-- `S3Represent.render_list`: render a list-type value from `bulk` labels. -/
def Represent.render_list (r : Represent) (value : List Val)
    (labels : List (Val × OutAtom)) (show_link : Bool) : Out :=
  let showl := show_link && r.show_link
  if showl then
    Out.tag (List.intersperse (OutAtom.str ", ") (value.map (fun v =>
      match lookupA labels v with
      | some a => a
      | Option.none => OutAtom.str r.default)))
  else
    Out.str (String.intercalate ", " (value.map (fun v =>
      match lookupA labels v with
      | some a => s3_unicode_atom a
      | Option.none => r.default)))

/-! ### `S3RepresentLazy` -/

/-- `S3RepresentLazy.__init__`: register the value on the shared renderer
pending queue (`renderer.lazy.append(value)`). -/
def S3RepresentLazy_init (value : PyVal) (s : RState) : RState :=
  { s with lazy := s.lazy ++ [value] }

/-- `S3RepresentLazy.represent`: flush the whole shared queue with one
`bulk()` call if non-empty, then render this accumulator's own value. -/
def S3RepresentLazy_represent (r : Represent) (s : RState) (value : PyVal)
    (mult : Bool) : Except PyErr (Out × RState) :=
  let flushed : Except PyErr (List (Val × OutAtom) × RState) :=
    if !s.lazy.isEmpty then
      match r.bulk s (PyVal.list (s.lazy.map (fun v =>
          match v with
          | PyVal.scal u => PyItem.scal u
          | PyVal.list ys => PyItem.list (ys.filterMap (fun e =>
              match e with
              | PyItem.scal u => some u
              | PyItem.list _ => Option.none))))) Option.none true true with
      | Except.ok ls₁ => Except.ok (ls₁.1, { ls₁.2 with lazy := [] })
      | Except.error e => Except.error e
    else
      Except.ok (s.theset.map (fun kv => (kv.1, OutAtom.str kv.2)), s)
  match flushed with
  | Except.error e => Except.error e
  | Except.ok lss =>
    if r.list_type then
      if mult then r.multiple lss.2 value Option.none true false
      else
        match iterVals value with
        | Except.ok vs => Except.ok (r.render_list vs lss.1 false, lss.2)
        | Except.error e => Except.error e
    else
      if mult then r.multiple lss.2 value Option.none true false
      else r.call lss.2 value Option.none false

/-! ### Concrete instances used by the scenario theorems and witnesses -/

def rowAlpha : Row := ⟨Val.vint 1, [("name", some "Alpha")]⟩

def rowBeta : Row := ⟨Val.vint 2, [("name", some "Beta")]⟩

/-- A plain two-row lookup table (`org` style: rows 1 = Alpha, 2 = Beta). -/
def tabBasic : Table := ⟨[rowAlpha, rowBeta], false, ⟨false, []⟩⟩

/-- A scalar-key representer over `tabBasic` (defaults: unknown = "Unknown",
none = "-"). -/
def rBasic : Represent :=
  ⟨some tabBasic, ["name"], LabelsCfg.fieldJoin, false, false, false, id,
   Option.none, false, "Unknown", "-", " ", defaultHtemplate⟩

/-- The same configuration for a web2py list-type field. -/
def rListAB : Represent :=
  ⟨some tabBasic, ["name"], LabelsCfg.fieldJoin, true, false, false, id,
   Option.none, false, "Unknown", "-", " ", defaultHtemplate⟩

/-- Hierarchical lookup table with chain 1 → 2 → 3 (3 is a root). -/
def tabHier : Table :=
  ⟨[⟨Val.vint 1, [("name", some "A")]⟩, ⟨Val.vint 2, [("name", some "B")]⟩,
    ⟨Val.vint 3, [("name", some "C")]⟩],
   false,
   ⟨true, [(Val.vint 1, Val.vint 2), (Val.vint 2, Val.vint 3)]⟩⟩

/-- A hierarchical representer over `tabHier` with the default template. -/
def rHier : Represent :=
  ⟨some tabHier, ["name"], LabelsCfg.fieldJoin, false, true, false, id,
   Option.none, false, "Unknown", "-", " ", defaultHtemplate⟩

/-- A table whose schema is missing the configured key field. -/
def tabNoKey : Table := ⟨[rowAlpha], true, ⟨false, []⟩⟩

def rNoKey : Represent :=
  ⟨some tabNoKey, ["name"], LabelsCfg.fieldJoin, false, false, false, id,
   Option.none, false, "Unknown", "-", " ", defaultHtemplate⟩

/-- A table containing a row whose key is the integer 0. -/
def tabZero : Table := ⟨[⟨Val.vint 0, [("name", some "Zero")]⟩], false, ⟨false, []⟩⟩

def rZero : Represent :=
  ⟨some tabZero, ["name"], LabelsCfg.fieldJoin, false, false, false, id,
   Option.none, false, "Unknown", "-", " ", defaultHtemplate⟩

/-- The state after one bulk fetch of keys 1 and 2 against `tabBasic`. -/
def sAfterFetch12 : RState :=
  ⟨[(Val.vint 1, "Alpha"), (Val.vint 2, "Beta")],
   [(Val.vint 1, rowAlpha), (Val.vint 2, rowBeta)],
   1, [[Val.vint 1, Val.vint 2]], []⟩

/-- Two pending lazy accumulators (values 1 and 2) on a fresh renderer. -/
def sLazy2 : RState :=
  S3RepresentLazy_init (PyVal.scal (Val.vint 2))
    (S3RepresentLazy_init (PyVal.scal (Val.vint 1)) RState.empty)

/-- The `[[1,2],[2,None]]` list-of-lists input of the C4 scenario. -/
def c4input : PyVal :=
  PyVal.list [PyItem.list [Val.vint 1, Val.vint 2],
              PyItem.list [Val.vint 2, Val.vnone]]

/-! ### Theorems -/

/-- Claim C2: in a hierarchy 1 → 2 → 3 (3 a root), `_lookup [1]` yields the
label "C > B > A" composed with the default template "%s > %s", using exactly
one fetch whose key list covers all of 1, 2, 3 (the uncached ancestors of the
single requested key are enqueued before the fetch), and caches every level
of the path. -/
theorem hierarchy_path_single_batch :
    (rHier._lookup RState.empty [Val.vint 1] Option.none).1 =
      [(Val.vint 1, "C > B > A")] ∧
    (rHier._lookup RState.empty [Val.vint 1] Option.none).2.queries = 1 ∧
    (rHier._lookup RState.empty [Val.vint 1] Option.none).2.fetchLog =
      [[Val.vint 1, Val.vint 2, Val.vint 3]] ∧
    (rHier._lookup RState.empty [Val.vint 1] Option.none).2.theset =
      [(Val.vint 3, "C"), (Val.vint 2, "C > B"), (Val.vint 1, "C > B > A")] :=
  ⟨rfl, rfl, rfl, rfl⟩

/-- Claim C4 (counterexample): for `[[1,2],[2,None]]` the `multiple` method
returns ONE comma-joined string over the deduplicated union (with the
none-label for the embedded None), not two per-list strings. -/
theorem multiple_single_string_counterexample :
    rListAB.multiple RState.empty c4input Option.none true true =
      Except.ok (Out.str "Alpha, Beta, -", sAfterFetch12) ∧
    Out.str "Alpha, Beta, -" ≠
      Out.tag [OutAtom.str "Alpha, Beta", OutAtom.str "Beta, -"] :=
  ⟨rfl, by decide⟩

/-- Claim C4 (amended): for `[[1,2],[2,None]]`, `multiple` returns a single
separator-joined string over the deduplicated union of the lists (in the
model's first-occurrence order, the embedded None rendered as the none
label), and performs exactly one fetch, for the deduplicated set {1, 2}
only. -/
theorem multiple_dedup_union_joined :
    rListAB.multiple RState.empty c4input Option.none true true =
      Except.ok (Out.str "Alpha, Beta, -", sAfterFetch12) ∧
    sAfterFetch12.queries = 1 ∧
    sAfterFetch12.fetchLog = [[Val.vint 1, Val.vint 2]] :=
  ⟨rfl, rfl, rfl⟩

/-- Claim C5 (counterexample): with the key field missing from the schema,
`__call__(1)` returns normally (`Except.ok`) with the default label and an
unchanged state — the hard failure is silently absorbed and degrades the
value to the default label, instead of propagating to the caller. -/
theorem missing_key_attr_absorbed_counterexample :
    rNoKey.call RState.empty (PyVal.scal (Val.vint 1)) Option.none true =
      Except.ok (Out.str "Unknown", RState.empty) := rfl

/-- Claim C6 (counterexample): key 999 has no row; the first `_lookup` call
performs a fetch, and a second `_lookup` for the same key performs ANOTHER
fetch (queries goes 1 then 2, and the fetch log records both), because the
unresolved key was not cached. -/
theorem unresolved_retry_counterexample :
    ((rBasic._lookup RState.empty [Val.vint 999] Option.none).2).queries = 1 ∧
    ((rBasic._lookup
        ((rBasic._lookup RState.empty [Val.vint 999] Option.none).2)
        [Val.vint 999] Option.none).2).queries = 2 ∧
    ((rBasic._lookup
        ((rBasic._lookup RState.empty [Val.vint 999] Option.none).2)
        [Val.vint 999] Option.none).2).fetchLog =
      [[Val.vint 999], [Val.vint 999]] :=
  ⟨rfl, rfl, rfl⟩

/-- Claim C9: all lazy accumulators of one renderer share the pending queue
`renderer.lazy` (construction appends the value); with accumulators for 1 and
2 pending, the first `represent()` resolves the whole queue via a single
`bulk()` call (one fetch for both keys) and empties the queue, and a
subsequent `represent()` of the other accumulator performs no further
resolution of the queued values (identical state, no new fetch). -/
theorem lazy_shared_queue_single_flush :
    (∀ (v : PyVal) (s : RState),
      (S3RepresentLazy_init v s).lazy = s.lazy ++ [v]) ∧
    sLazy2.lazy = [PyVal.scal (Val.vint 1), PyVal.scal (Val.vint 2)] ∧
    S3RepresentLazy_represent rBasic sLazy2 (PyVal.scal (Val.vint 1)) false =
      Except.ok (Out.str "Alpha", sAfterFetch12) ∧
    S3RepresentLazy_represent rBasic sAfterFetch12 (PyVal.scal (Val.vint 2)) false =
      Except.ok (Out.str "Beta", sAfterFetch12) :=
  ⟨fun v s => rfl, rfl, rfl, rfl⟩

theorem fetchPhase_queries (r : Represent) (t : Table) (hOpt : Option Hierarchy)
    (keys : List (Val × Val)) (acc : LkAcc) (s : RState) :
    (fetchPhase r t hOpt keys acc s).2.queries = s.queries + 1 ∧
    (fetchPhase r t hOpt keys acc s).2.fetchLog.length = s.fetchLog.length + 1 := by
  simp [fetchPhase, Table._lookup_rows]

/-- Claim C1: a single `_lookup` invocation calls the fetch collaborator at
most once, whatever the requested values: the queries counter and the fetch
log grow by at most 1. -/
theorem lookup_at_most_one_fetch (r : Represent) (s : RState)
    (values : List Val) (rowsArg : Option (List Row)) :
    ((r._lookup s values rowsArg).2).queries ≤ s.queries + 1 ∧
    ((r._lookup s values rowsArg).2).fetchLog.length ≤ s.fetchLog.length + 1 := by
  unfold Represent._lookup
  cases htab : r.table
  · exact ⟨Nat.le_succ _, Nat.le_succ _⟩
  · dsimp only
    repeat' split
    all_goals
      first
        | exact ⟨Nat.le_succ _, Nat.le_succ _⟩
        | exact ⟨Nat.le_of_eq (fetchPhase_queries _ _ _ _ _ s).1,
                 Nat.le_of_eq (fetchPhase_queries _ _ _ _ _ s).2⟩

/-- Claim C10: for a non-list-type representer, `__call__` on any falsy value
(None, 0, "", or an empty list) returns the none label with the state (cache,
queries) untouched — no lookup is performed, so a row keyed 0 is unreachable
through this entry point. -/
theorem falsy_value_none_label (r : Represent) (s : RState) (v : PyVal)
    (hlt : r.list_type = false) (hv : pyTruthy v = false) :
    r.call s v Option.none true = Except.ok (Out.str r.none, s) := by
  unfold Represent.call
  rw [hlt]
  simp [hv]

/-- Claim C8: for a list-type representer, a flat list of (non-iterable)
scalars given to `multiple` and a non-iterable scalar given to `bulk` raise
ValueError, surfaced to the caller. -/
theorem malformed_multi_value_valueerror (r : Represent) (s : RState)
    (hlt : r.list_type = true) :
    r.multiple s (PyVal.list [PyItem.scal (Val.vint 1), PyItem.scal (Val.vint 2)])
        Option.none true true = Except.error PyErr.valueError ∧
    r.bulk s (PyVal.scal (Val.vint 5)) Option.none true true =
        Except.error PyErr.valueError := by
  have hflat1 : flattenVals (PyVal.list [PyItem.scal (Val.vint 1), PyItem.scal (Val.vint 2)]) =
      Except.error PyErr.valueError := rfl
  have hflat2 : flattenVals (PyVal.scal (Val.vint 5)) = Except.error PyErr.valueError := rfl
  constructor
  · unfold Represent.multiple
    simp [hlt, hflat1]
  · unfold Represent.bulk
    simp [hlt, hflat2]

/-- Claim C5 (amended): when the configured key field is missing from the
lookup table schema, `_lookup` silently returns only the items resolvable
from the cache (the state unchanged, no fetch, no error raised) — the hard
failure is absorbed, not propagated. -/
theorem missing_key_attr_returns_partial (r : Represent) (t : Table) (s : RState)
    (values : List Val) (rowsArg : Option (List Row))
    (htab : r.table = some t) (hka : t.keyAttrMissing = true) :
    r._lookup s values rowsArg = ((scanValues r s.theset values).items, s) := by
  unfold Represent._lookup
  rw [htab]
  by_cases h1 : (scanValues r s.theset values).lkp.isEmpty
  · simp [h1]
  · simp [h1, hka]

theorem lookupA_setA_self {κ α : Type} [DecidableEq κ] (m : List (κ × α)) (k : κ) (v : α) :
    lookupA (setA m k v) k = some v := by
  induction m with
  | nil => simp [setA, lookupA]
  | cons p m ih =>
    obtain ⟨k', v'⟩ := p
    by_cases h : k' = k
    · simp [setA, h, lookupA]
    · simp [setA, h, lookupA, ih]

theorem lookupA_setA_ne {κ α : Type} [DecidableEq κ] (m : List (κ × α)) (k k2 : κ) (v : α)
    (h : k2 ≠ k) : lookupA (setA m k v) k2 = lookupA m k2 := by
  induction m with
  | nil => simp [setA, lookupA, Ne.symm h]
  | cons p m ih =>
    obtain ⟨k', v'⟩ := p
    by_cases h' : k' = k
    · subst h'
      simp [setA, lookupA, Ne.symm h]
    · simp [setA, h', lookupA, ih]

theorem truthy_ne_vnone (v : Val) (h : v.isTruthy = true) : v ≠ Val.vnone := by
  cases v <;> simp_all [Val.isTruthy]

theorem normVal_ne_vnone (b : Bool) (v : Val) (h : v ≠ Val.vnone) :
    normVal b v ≠ Val.vnone := by
  cases v with
  | vnone => exact absurd rfl h
  | vint n => simp [normVal]
  | vstr s =>
    simp only [normVal]
    cases b
    · simp
    · cases h' : s.toInt? <;> simp

theorem scan_single_pending (r : Represent) (theset : List (Val × String)) (v : Val)
    (htab : r.table.isSome = true) (hvn : v ≠ Val.vnone)
    (hcache : lookupA theset (normVal true v) = Option.none) :
    scanValues r theset [v] =
      ⟨[(normVal true v, v)], [], [(normVal true v, true)]⟩ := by
  have hk := normVal_ne_vnone true v hvn
  simp [scanValues, scanStep, htab, hk, hcache, setA]

theorem scan_single_cached (r : Represent) (theset : List (Val × String)) (v : Val)
    (lbl : String) (htab : r.table.isSome = true) (hvn : v ≠ Val.vnone)
    (hcache : lookupA theset (normVal true v) = some lbl) :
    scanValues r theset [v] = ⟨[(normVal true v, v)], [(v, lbl)], []⟩ := by
  have hk := normVal_ne_vnone true v hvn
  simp [scanValues, scanStep, htab, hk, hcache, setA]

theorem lookup_cached_single (r : Represent) (t : Table) (s : RState) (v : Val)
    (lbl : String) (htab : r.table = some t) (hvn : v ≠ Val.vnone)
    (hcache : lookupA s.theset (normVal true v) = some lbl) :
    r._lookup s [v] Option.none = ([(v, lbl)], s) := by
  have hsome : r.table.isSome = true := by rw [htab]; rfl
  unfold Represent._lookup
  rw [scan_single_cached r s.theset v lbl hsome hvn hcache, htab]
  simp

theorem lookup_missing_single (r : Represent) (t : Table) (s : RState) (v : Val)
    (htab : r.table = some t) (hka : t.keyAttrMissing = false)
    (hh : r.hierarchy = false) (hvn : v ≠ Val.vnone)
    (hcache : lookupA s.theset (normVal true v) = Option.none)
    (hnorow : ∀ row ∈ t.rows, row.key ≠ normVal true v) :
    r._lookup s [v] Option.none =
      ([(v, r.default)],
       { s with queries := s.queries + 1,
                fetchLog := s.fetchLog ++ [[normVal true v]] }) := by
  have hsome : r.table.isSome = true := by rw [htab]; rfl
  unfold Represent._lookup
  rw [scan_single_pending r s.theset v hsome hvn hcache, htab]
  have hfil : t.rows.filter (fun row => decide (normVal true v = row.key)) = [] := by
    rw [List.filter_eq_nil_iff]
    intro row hrow
    simp [Ne.symm (hnorow row hrow)]
  simp [hh, hka, fetchPhase, Table._lookup_rows, hfil, keysGet, lookupA, setA]

theorem foldl_setA_rows_const (k : Val) (rs : List Row) :
    ∀ (r0 : Row), (∀ x ∈ rs, x.key = k) →
      ∃ rw, (rw ∈ rs ∨ rw = r0) ∧
        rs.foldl (fun m row => setA m row.key row) [(k, r0)] = [(k, rw)] := by
  induction rs with
  | nil => intro r0 h; exact ⟨r0, Or.inr rfl, rfl⟩
  | cons x rest ih =>
    intro r0 h
    have hx : x.key = k := h x (List.mem_cons_self _ _)
    have step : setA ([(k, r0)] : List (Val × Row)) x.key x = [(k, x)] := by
      rw [hx]; simp [setA]
    obtain ⟨rw, hmem, heq⟩ := ih x (fun y hy => h y (List.mem_cons_of_mem _ hy))
    refine ⟨rw, ?_, ?_⟩
    · cases hmem with
      | inl hm => exact Or.inl (List.mem_cons_of_mem _ hm)
      | inr he => exact Or.inl (he ▸ List.mem_cons_self _ _)
    · simpa [List.foldl_cons, step] using heq

theorem foldl_setA_rows_nonempty (k : Val) (rs : List Row) (hne : rs ≠ [])
    (h : ∀ x ∈ rs, x.key = k) :
    ∃ rw, rw ∈ rs ∧ rs.foldl (fun m row => setA m row.key row) [] = [(k, rw)] := by
  cases rs with
  | nil => exact absurd rfl hne
  | cons x rest =>
    have hx : x.key = k := h x (List.mem_cons_self _ _)
    have hstep : setA ([] : List (Val × Row)) x.key x = [(k, x)] := by
      rw [hx]; simp [setA]
    obtain ⟨rw, hmem, heq⟩ :=
      foldl_setA_rows_const k rest x (fun y hy => h y (List.mem_cons_of_mem _ hy))
    refine ⟨rw, ?_, ?_⟩
    · cases hmem with
      | inl hm => exact List.mem_cons_of_mem _ hm
      | inr he => exact he ▸ List.mem_cons_self _ _
    · simpa [List.foldl_cons, hstep] using heq

theorem lookup_hit_single (r : Represent) (t : Table) (s : RState) (v : Val)
    (htab : r.table = some t) (hka : t.keyAttrMissing = false)
    (hh : r.hierarchy = false) (hvn : v ≠ Val.vnone)
    (hcache : lookupA s.theset (normVal true v) = Option.none)
    (hrow : ∃ rw ∈ t.rows, rw.key = normVal true v) :
    ∃ rw, rw ∈ t.rows ∧ rw.key = normVal true v ∧
      r._lookup s [v] Option.none =
        ([(v, r.represent_row rw Option.none)],
         { s with
             theset := setA s.theset (normVal true v) (r.represent_row rw Option.none),
             rows := setA s.rows (normVal true v) rw,
             queries := s.queries + 1,
             fetchLog := s.fetchLog ++ [[normVal true v]] }) := by
  have hsome : r.table.isSome = true := by rw [htab]; rfl
  set k := normVal true v with hkdef
  set fil := t.rows.filter (fun row => decide (k = row.key)) with hfildef
  have hfilsub : ∀ x ∈ fil, x ∈ t.rows := by
    intro x hx; exact List.mem_of_mem_filter hx
  have hfilkey : ∀ x ∈ fil, x.key = k := by
    intro x hx
    have h2 := List.of_mem_filter hx
    have h3 : k = x.key := by simpa using h2
    exact h3.symm
  have hfilne : fil ≠ [] := by
    obtain ⟨rw, hmem, hkey⟩ := hrow
    intro hnil
    have : rw ∈ fil := by
      rw [hfildef]
      refine List.mem_filter.mpr ⟨hmem, by simp [hkey]⟩
    rw [hnil] at this
    exact List.not_mem_nil rw this
  obtain ⟨rw, hmem, hfold⟩ := foldl_setA_rows_nonempty k fil hfilne hfilkey
  refine ⟨rw, hfilsub rw hmem, hfilkey rw hmem, ?_⟩
  unfold Represent._lookup
  rw [scan_single_pending r s.theset v hsome hvn hcache, htab]
  simp only [hh, hka, Bool.false_and, if_false, Bool.false_eq_true, List.isEmpty_cons,
    List.isEmpty_nil]
  simp [fetchPhase, Table._lookup_rows, ← hfildef, hfold, plainStep, keysGet,
    lookupA, setA, removeA]

theorem call_single_unfold (r : Represent) (s : RState) (v : Val)
    (hlt : r.list_type = false) (htr : v.isTruthy = true) :
    r.call s (PyVal.scal v) Option.none true =
      (match lookupA (r._lookup s [v] Option.none).1 v with
       | some lbl =>
           Except.ok ((if r.show_link then atomOut (r.link v lbl) else Out.str lbl),
             (r._lookup s [v] Option.none).2)
       | Option.none =>
           Except.ok (Out.str r.default, (r._lookup s [v] Option.none).2)) := by
  unfold Represent.call
  rw [hlt]
  simp [pyTruthy, htr]

/-- Claim C3: for a (non-hierarchical) representer and any truthy value whose
normalized key has a matching row, calling `__call__` twice returns the
identical output both times and the second call returns the state of the
first unchanged — in particular the queries counter does not move, because
the label is served from `theset`. -/
theorem call_idempotent_cached (r : Represent) (t : Table) (s : RState) (v : Val)
    (htab : r.table = some t) (hka : t.keyAttrMissing = false)
    (hh : r.hierarchy = false) (hlt : r.list_type = false)
    (htr : v.isTruthy = true)
    (hrow : ∃ rw ∈ t.rows, rw.key = normVal true v) :
    ∃ o s₁, r.call s (PyVal.scal v) Option.none true = Except.ok (o, s₁) ∧
            r.call s₁ (PyVal.scal v) Option.none true = Except.ok (o, s₁) := by
  have hvn := truthy_ne_vnone v htr
  cases hcache : lookupA s.theset (normVal true v) with
  | some lbl =>
    have h1 := lookup_cached_single r t s v lbl htab hvn hcache
    have hc := call_single_unfold r s v hlt htr
    rw [h1] at hc
    refine ⟨(if r.show_link then atomOut (r.link v lbl) else Out.str lbl), s, ?_, ?_⟩
    · rw [hc]; simp [lookupA]
    · rw [hc]; simp [lookupA]
  | none =>
    obtain ⟨rw, hmem, hkey, h1⟩ := lookup_hit_single r t s v htab hka hh hvn hcache hrow
    have hc1 := call_single_unfold r s v hlt htr
    rw [h1] at hc1
    have hcache2 : lookupA
        ({ s with
            theset := setA s.theset (normVal true v) (r.represent_row rw Option.none),
            rows := setA s.rows (normVal true v) rw,
            queries := s.queries + 1,
            fetchLog := s.fetchLog ++ [[normVal true v]] } : RState).theset
        (normVal true v) = some (r.represent_row rw Option.none) :=
      lookupA_setA_self _ _ _
    have h2 := lookup_cached_single r t
        ({ s with
            theset := setA s.theset (normVal true v) (r.represent_row rw Option.none),
            rows := setA s.rows (normVal true v) rw,
            queries := s.queries + 1,
            fetchLog := s.fetchLog ++ [[normVal true v]] } : RState) v
        (r.represent_row rw Option.none) htab hvn hcache2
    have hc2 := call_single_unfold r
        ({ s with
            theset := setA s.theset (normVal true v) (r.represent_row rw Option.none),
            rows := setA s.rows (normVal true v) rw,
            queries := s.queries + 1,
            fetchLog := s.fetchLog ++ [[normVal true v]] } : RState) v hlt htr
    rw [h2] at hc2
    refine ⟨(if r.show_link then atomOut (r.link v (r.represent_row rw Option.none))
             else Out.str (r.represent_row rw Option.none)),
            ({ s with
                theset := setA s.theset (normVal true v) (r.represent_row rw Option.none),
                rows := setA s.rows (normVal true v) rw,
                queries := s.queries + 1,
                fetchLog := s.fetchLog ++ [[normVal true v]] } : RState), ?_, ?_⟩
    · rw [hc1]; simp [lookupA]
    · rw [hc2]; simp [lookupA]

/-- Claim C6 (amended): an unresolved key is NOT cached in `theset`, so a
second `_lookup` request for the same key triggers another fetch: the second
call increments the queries counter again (s.queries + 2 after two calls). -/
theorem unresolved_key_refetches (r : Represent) (t : Table) (s : RState) (v : Val)
    (htab : r.table = some t) (hka : t.keyAttrMissing = false)
    (hh : r.hierarchy = false) (hvn : v ≠ Val.vnone)
    (hcache : lookupA s.theset (normVal true v) = Option.none)
    (hnorow : ∀ row ∈ t.rows, row.key ≠ normVal true v) :
    ((r._lookup s [v] Option.none).2).theset = s.theset ∧
    ((r._lookup s [v] Option.none).2).queries = s.queries + 1 ∧
    ((r._lookup ((r._lookup s [v] Option.none).2) [v] Option.none).2).queries =
      s.queries + 2 := by
  have h1 := lookup_missing_single r t s v htab hka hh hvn hcache hnorow
  have h2 := lookup_missing_single r t
      ({ s with queries := s.queries + 1,
                fetchLog := s.fetchLog ++ [[normVal true v]] } : RState) v
      htab hka hh hvn hcache hnorow
  rw [h1]
  exact ⟨rfl, rfl, by rw [h2]⟩

/-- Witness for C10: `__call__(0)` on a representer whose table even contains
a row keyed 0 still yields the none label. -/
theorem falsy_value_none_label_witness :
    rZero.call RState.empty (PyVal.scal (Val.vint 0)) Option.none true =
      Except.ok (Out.str "-", RState.empty) :=
  falsy_value_none_label rZero RState.empty (PyVal.scal (Val.vint 0)) rfl (by decide)

/-- Witness for C8 at the list-type representer `rListAB`. -/
theorem malformed_multi_value_valueerror_witness :
    rListAB.multiple RState.empty
        (PyVal.list [PyItem.scal (Val.vint 1), PyItem.scal (Val.vint 2)])
        Option.none true true = Except.error PyErr.valueError ∧
    rListAB.bulk RState.empty (PyVal.scal (Val.vint 5)) Option.none true true =
      Except.error PyErr.valueError :=
  malformed_multi_value_valueerror rListAB RState.empty rfl

/-- Witness for C5 (amended) at the key-attribute-missing table. -/
theorem missing_key_attr_returns_partial_witness :
    rNoKey._lookup RState.empty [Val.vint 1] Option.none =
      ((scanValues rNoKey RState.empty.theset [Val.vint 1]).items, RState.empty) :=
  missing_key_attr_returns_partial rNoKey tabNoKey RState.empty [Val.vint 1]
    Option.none rfl rfl

/-- Witness for C3: value 1 (row "Alpha") represented twice by the same
instance. -/
theorem call_idempotent_cached_witness :
    Val.isTruthy (Val.vint 1) = true ∧
    (∃ o s₁,
      rBasic.call RState.empty (PyVal.scal (Val.vint 1)) Option.none true =
        Except.ok (o, s₁) ∧
      rBasic.call s₁ (PyVal.scal (Val.vint 1)) Option.none true =
        Except.ok (o, s₁)) :=
  ⟨by decide,
   call_idempotent_cached rBasic tabBasic RState.empty (Val.vint 1) rfl rfl rfl rfl
     (by decide) ⟨rowAlpha, by decide, by decide⟩⟩

/-- Witness for C6 (amended): two requests for the missing key 999. -/
theorem unresolved_key_refetches_witness :
    ((rBasic._lookup RState.empty [Val.vint 999] Option.none).2).theset =
      RState.empty.theset ∧
    ((rBasic._lookup RState.empty [Val.vint 999] Option.none).2).queries = 1 ∧
    ((rBasic._lookup ((rBasic._lookup RState.empty [Val.vint 999] Option.none).2)
        [Val.vint 999] Option.none).2).queries = 2 :=
  unresolved_key_refetches rBasic tabBasic RState.empty (Val.vint 999) rfl rfl rfl
    (by decide) rfl (by decide)

theorem lookupA_setA_cases {κ α : Type} [DecidableEq κ] (m : List (κ × α)) (k k2 : κ)
    (v : α) : lookupA (setA m k v) k2 = if k2 = k then some v else lookupA m k2 := by
  by_cases h : k2 = k
  · rw [if_pos h, h]; exact lookupA_setA_self m k v
  · rw [if_neg h]; exact lookupA_setA_ne m k k2 v h

theorem mem_fst_lookupA {κ α : Type} [DecidableEq κ] (m : List (κ × α)) (k : κ)
    (h : k ∈ m.map Prod.fst) : (lookupA m k).isSome := by
  induction m with
  | nil => simp at h
  | cons p m ih =>
    obtain ⟨k', v'⟩ := p
    by_cases hk : k' = k
    · simp [lookupA, hk]
    · simp only [List.map_cons, List.mem_cons] at h
      cases h with
      | inl h1 => exact absurd h1.symm hk
      | inr h2 => simpa [lookupA, hk] using ih h2

theorem mem_setA {κ α : Type} [DecidableEq κ] (m : List (κ × α)) (k : κ) (v : α)
    (p : κ × α) (h : p ∈ setA m k v) : p ∈ m ∨ p = (k, v) := by
  induction m with
  | nil => exact Or.inr (by simpa [setA] using h)
  | cons q m ih =>
    obtain ⟨k', v'⟩ := q
    by_cases hk : k' = k
    · simp only [setA, if_pos hk] at h
      cases h with
      | head => exact Or.inr rfl
      | tail _ h2 => exact Or.inl (List.mem_cons_of_mem _ h2)
    · simp only [setA, if_neg hk] at h
      cases h with
      | head => exact Or.inl (List.mem_cons_self _ _)
      | tail _ h2 =>
        cases ih h2 with
        | inl h3 => exact Or.inl (List.mem_cons_of_mem _ h3)
        | inr h3 => exact Or.inr h3

theorem lookupA_setA_isSome {κ α : Type} [DecidableEq κ] (m : List (κ × α)) (k : κ)
    (v : α) (k' : κ) (h : (lookupA m k').isSome) :
    (lookupA (setA m k v) k').isSome := by
  rw [lookupA_setA_cases]
  by_cases hk : k' = k <;> simp [hk, h]

theorem scanStep_keys (r : Represent) (theset : List (Val × String)) (acc : ScanAcc)
    (rawv : Val) :
    (scanStep r theset acc rawv).keys =
      setA acc.keys (normVal r.table.isSome rawv) rawv := by
  unfold scanStep
  by_cases hnone : normVal r.table.isSome rawv = Val.vnone
  · simp [hnone]
  · cases hset : lookupA theset (normVal r.table.isSome rawv) <;> simp [hnone, hset]

theorem scanStep_items_ne (r : Represent) (theset : List (Val × String)) (acc : ScanAcc)
    (rawv v : Val) (h : rawv ≠ v) :
    lookupA (scanStep r theset acc rawv).items v = lookupA acc.items v := by
  unfold scanStep
  by_cases hnone : normVal r.table.isSome rawv = Val.vnone
  · simp [hnone, lookupA_setA_ne _ _ _ _ (Ne.symm h)]
  · cases hset : lookupA theset (normVal r.table.isSome rawv) with
    | some lbl => simp [hnone, hset, lookupA_setA_ne _ _ _ _ (Ne.symm h)]
    | none => simp [hnone, hset]

theorem scanStep_items_pending (r : Represent) (theset : List (Val × String))
    (acc : ScanAcc) (v : Val) (hvn : normVal r.table.isSome v ≠ Val.vnone)
    (hcache : lookupA theset (normVal r.table.isSome v) = Option.none) :
    lookupA (scanStep r theset acc v).items v = lookupA acc.items v := by
  unfold scanStep
  simp [hvn, hcache]

theorem scan_items_none (r : Represent) (theset : List (Val × String)) (v : Val)
    (hvn : normVal r.table.isSome v ≠ Val.vnone)
    (hcache : lookupA theset (normVal r.table.isSome v) = Option.none) :
    ∀ (values : List Val) (acc : ScanAcc), lookupA acc.items v = Option.none →
      lookupA (values.foldl (scanStep r theset) acc).items v = Option.none := by
  intro values
  induction values with
  | nil => intro acc h; exact h
  | cons x xs ih =>
    intro acc h
    rw [List.foldl_cons]
    apply ih
    by_cases hx : x = v
    · rw [hx, scanStep_items_pending r theset acc v hvn hcache]; exact h
    · rw [scanStep_items_ne r theset acc x v hx]; exact h

theorem scanStep_lkp_cases (r : Represent) (theset : List (Val × String)) (acc : ScanAcc)
    (rawv v' : Val) (h : (lookupA (scanStep r theset acc rawv).lkp v').isSome) :
    (lookupA acc.lkp v').isSome ∨ v' = normVal r.table.isSome rawv := by
  unfold scanStep at h
  by_cases hnone : normVal r.table.isSome rawv = Val.vnone
  · simp [hnone] at h; exact Or.inl h
  · cases hset : lookupA theset (normVal r.table.isSome rawv) with
    | some lbl => simp [hnone, hset] at h; exact Or.inl h
    | none =>
      simp [hnone, hset] at h
      rw [lookupA_setA_cases] at h
      by_cases hv : v' = normVal r.table.isSome rawv
      · exact Or.inr hv
      · rw [if_neg hv] at h; exact Or.inl h

theorem scan_lkp_sub_keys (r : Represent) (theset : List (Val × String)) :
    ∀ (values : List Val) (acc : ScanAcc),
      (∀ v', (lookupA acc.lkp v').isSome → (lookupA acc.keys v').isSome) →
      ∀ v', (lookupA (values.foldl (scanStep r theset) acc).lkp v').isSome →
        (lookupA (values.foldl (scanStep r theset) acc).keys v').isSome := by
  intro values
  induction values with
  | nil => intro acc h; exact h
  | cons x xs ih =>
    intro acc h
    rw [List.foldl_cons]
    apply ih
    intro v' hv'
    rw [scanStep_keys]
    cases scanStep_lkp_cases r theset acc x v' hv' with
    | inl h1 => exact lookupA_setA_isSome _ _ _ _ (h v' h1)
    | inr h2 => rw [h2]; simp [lookupA_setA_self]

theorem scan_keys_norm (r : Represent) (theset : List (Val × String)) :
    ∀ (values : List Val) (acc : ScanAcc),
      (∀ k' rv, lookupA acc.keys k' = some rv → normVal r.table.isSome rv = k') →
      ∀ k' rv, lookupA (values.foldl (scanStep r theset) acc).keys k' = some rv →
        normVal r.table.isSome rv = k' := by
  intro values
  induction values with
  | nil => intro acc h; exact h
  | cons x xs ih =>
    intro acc h
    rw [List.foldl_cons]
    apply ih
    intro k' rv hlk
    rw [scanStep_keys, lookupA_setA_cases] at hlk
    by_cases hk : k' = normVal r.table.isSome x
    · rw [if_pos hk] at hlk
      cases hlk
      exact hk.symm
    · rw [if_neg hk] at hlk
      exact h k' rv hlk

theorem foldl_rows_lookupA_ne (k : Val) :
    ∀ (rows : List Row) (m : List (Val × Row)), (∀ row ∈ rows, row.key ≠ k) →
      lookupA (rows.foldl (fun m row => setA m row.key row) m) k = lookupA m k := by
  intro rows
  induction rows with
  | nil => intro m h; rfl
  | cons x xs ih =>
    intro m h
    rw [List.foldl_cons,
        ih (setA m x.key x) (fun y hy => h y (List.mem_cons_of_mem _ hy)),
        lookupA_setA_ne _ _ _ _ (Ne.symm (h x (List.mem_cons_self _ _)))]

theorem rowsD_entry_keys :
    ∀ (rows : List Row) (m : List (Val × Row)) (p : Val × Row),
      p ∈ rows.foldl (fun m row => setA m row.key row) m →
      p ∈ m ∨ ∃ row ∈ rows, row.key = p.1 := by
  intro rows
  induction rows with
  | nil => intro m p h; exact Or.inl h
  | cons x xs ih =>
    intro m p h
    cases ih (setA m x.key x) p h with
    | inl h3 =>
      cases mem_setA _ _ _ _ h3 with
      | inl h4 => exact Or.inl h4
      | inr h4 =>
        refine Or.inr ⟨x, List.mem_cons_self _ _, ?_⟩
        rw [h4]
    | inr h3 =>
      obtain ⟨row, hr, hk⟩ := h3
      exact Or.inr ⟨row, List.mem_cons_of_mem _ hr, hk⟩

theorem plain_fold_theset_ne (r : Represent) (keys : List (Val × Val)) (k : Val) :
    ∀ (rowsD : List (Val × Row)), (∀ p ∈ rowsD, p.1 ≠ k) → ∀ (tri : Phase3),
      lookupA (rowsD.foldl (plainStep r keys) tri).theset k = lookupA tri.theset k := by
  intro rowsD
  induction rowsD with
  | nil => intro _ tri; rfl
  | cons p ps ih =>
    intro h tri
    rw [List.foldl_cons, ih (fun q hq => h q (List.mem_cons_of_mem _ hq))]
    unfold plainStep
    exact lookupA_setA_ne _ _ _ _ (Ne.symm (h p (List.mem_cons_self _ _)))

theorem plain_fold_items_ne (r : Represent) (keys : List (Val × Val)) (v : Val) :
    ∀ (rowsD : List (Val × Row)), (∀ p ∈ rowsD, keysGet keys p.1 ≠ v) →
      ∀ (tri : Phase3),
      lookupA (rowsD.foldl (plainStep r keys) tri).items v = lookupA tri.items v := by
  intro rowsD
  induction rowsD with
  | nil => intro _ tri; rfl
  | cons p ps ih =>
    intro h tri
    rw [List.foldl_cons, ih (fun q hq => h q (List.mem_cons_of_mem _ hq))]
    unfold plainStep
    exact lookupA_setA_ne _ _ _ _ (Ne.symm (h p (List.mem_cons_self _ _)))

theorem default_fold_pres (keys : List (Val × Val)) (d : String) (v : Val) :
    ∀ (l : List (Val × Bool)) (its : List (Val × String)),
      (lookupA its v = Option.none ∨ lookupA its v = some d) →
      (lookupA (l.foldl (fun its p => setA its (keysGet keys p.1) d) its) v =
          Option.none ∨
       lookupA (l.foldl (fun its p => setA its (keysGet keys p.1) d) its) v =
          some d) := by
  intro l
  induction l with
  | nil => intro its h; exact h
  | cons p ps ih =>
    intro its h
    rw [List.foldl_cons]
    apply ih
    rw [lookupA_setA_cases]
    by_cases hv : v = keysGet keys p.1
    · rw [if_pos hv]; exact Or.inr rfl
    · rw [if_neg hv]; exact h

theorem lookup_unfold_fetch (r : Represent) (t : Table) (s : RState)
    (values : List Val) (htab : r.table = some t)
    (hka : t.keyAttrMissing = false) (hh : r.hierarchy = false)
    (hemp : (scanValues r s.theset values).lkp.isEmpty = false) :
    r._lookup s values Option.none =
      fetchPhase r t Option.none (scanValues r s.theset values).keys
        ⟨s.theset, s.rows, (scanValues r s.theset values).items,
         (scanValues r s.theset values).lkp⟩ s := by
  unfold Represent._lookup
  rw [htab]
  simp [hemp, hh, hka]

theorem fetchPhase_plain_decomp (r : Represent) (t : Table)
    (keys : List (Val × Val)) (acc : LkAcc) (s : RState) :
    fetchPhase r t Option.none keys acc s =
      ((((t.rows.filter (fun row =>
            (acc.lkp.map (fun p => p.1)).any (fun x => x = row.key))).foldl
            (fun m row => setA m row.key row) []).foldl (plainStep r keys)
            ⟨acc.lkp, acc.items, acc.theset⟩).lkp.foldl
          (fun its p => setA its (keysGet keys p.1) r.default)
          (((t.rows.filter (fun row =>
            (acc.lkp.map (fun p => p.1)).any (fun x => x = row.key))).foldl
            (fun m row => setA m row.key row) []).foldl (plainStep r keys)
            ⟨acc.lkp, acc.items, acc.theset⟩).items,
       { s with
           theset := (((t.rows.filter (fun row =>
             (acc.lkp.map (fun p => p.1)).any (fun x => x = row.key))).foldl
             (fun m row => setA m row.key row) []).foldl (plainStep r keys)
             ⟨acc.lkp, acc.items, acc.theset⟩).theset,
           rows := ((t.rows.filter (fun row =>
             (acc.lkp.map (fun p => p.1)).any (fun x => x = row.key))).foldl
             (fun m row => setA m row.key row) []).foldl
             (fun m kr => setA m kr.1 kr.2) acc.rowsC,
           queries := s.queries + 1,
           fetchLog := s.fetchLog ++ [acc.lkp.map (fun p => p.1)] }) := rfl

theorem lookup_missing_general (r : Represent) (t : Table) (s : RState)
    (values : List Val) (v : Val)
    (htab : r.table = some t) (hka : t.keyAttrMissing = false)
    (hh : r.hierarchy = false) (hvn : v ≠ Val.vnone)
    (hcache : lookupA s.theset (normVal true v) = Option.none)
    (hnorow : ∀ row ∈ t.rows, row.key ≠ normVal true v) :
    (lookupA (r._lookup s values Option.none).1 v = Option.none ∨
     lookupA (r._lookup s values Option.none).1 v = some r.default) ∧
    lookupA ((r._lookup s values Option.none).2).theset (normVal true v) =
      Option.none := by
  have hsome : r.table.isSome = true := by rw [htab]; rfl
  have hknorm : normVal r.table.isSome v ≠ Val.vnone := by
    rw [hsome]; exact normVal_ne_vnone true v hvn
  have hcache' : lookupA s.theset (normVal r.table.isSome v) = Option.none := by
    rw [hsome]; exact hcache
  have hitems : lookupA (scanValues r s.theset values).items v = Option.none :=
    scan_items_none r s.theset v hknorm hcache' values ⟨[], [], []⟩ rfl
  by_cases hemp : (scanValues r s.theset values).lkp.isEmpty
  · have hre : r._lookup s values Option.none =
        ((scanValues r s.theset values).items, s) := by
      unfold Represent._lookup
      rw [htab]
      simp [hemp]
    rw [hre]
    exact ⟨Or.inl hitems, hcache⟩
  · rw [lookup_unfold_fetch r t s values htab hka hh (by simpa using hemp),
        fetchPhase_plain_decomp]
    set a := scanValues r s.theset values with ha
    set wanted := (⟨s.theset, s.rows, a.items, a.lkp⟩ : LkAcc).lkp.map
      (fun p => p.1) with hwanted
    set fetched := t.rows.filter (fun row => wanted.any (fun x => x = row.key))
      with hfetched
    set rowsD := fetched.foldl (fun m row => setA m row.key row) [] with hrowsD
    set tri := rowsD.foldl (plainStep r a.keys)
      ⟨(⟨s.theset, s.rows, a.items, a.lkp⟩ : LkAcc).lkp,
       (⟨s.theset, s.rows, a.items, a.lkp⟩ : LkAcc).items,
       (⟨s.theset, s.rows, a.items, a.lkp⟩ : LkAcc).theset⟩ with htri
    have hrowsDfacts : ∀ p ∈ rowsD, p.1 ≠ normVal true v ∧
        keysGet a.keys p.1 ≠ v := by
      intro p hp
      rcases rowsD_entry_keys fetched [] p (by rw [← hrowsD]; exact hp) with
        h0 | ⟨row, hrmem, hrk⟩
      · simp at h0
      have hrow_t : row ∈ t.rows := List.mem_of_mem_filter hrmem
      have hkne : p.1 ≠ normVal true v := by
        rw [← hrk]; exact hnorow row hrow_t
      refine ⟨hkne, ?_⟩
      have hpred := List.of_mem_filter hrmem
      have hwmem : row.key ∈ wanted := by
        rw [List.any_eq_true] at hpred
        obtain ⟨x, hx, hxe⟩ := hpred
        have : x = row.key := by simpa using hxe
        rw [← this]; exact hx
      have hlkpsome : (lookupA a.lkp p.1).isSome := by
        apply mem_fst_lookupA
        rw [← hrk]
        simpa [hwanted] using hwmem
      have hkeysome : (lookupA a.keys p.1).isSome := by
        have hsub : (lookupA (scanValues r s.theset values).lkp p.1).isSome →
            (lookupA (scanValues r s.theset values).keys p.1).isSome :=
          scan_lkp_sub_keys r s.theset values ⟨[], [], []⟩
            (by intro v' hx; simp [lookupA] at hx) p.1
        exact hsub hlkpsome
      obtain ⟨rv, hrv⟩ := Option.isSome_iff_exists.mp hkeysome
      have hnormrv : normVal r.table.isSome rv = p.1 := by
        have hn : lookupA (scanValues r s.theset values).keys p.1 = some rv →
            normVal r.table.isSome rv = p.1 :=
          scan_keys_norm r s.theset values ⟨[], [], []⟩
            (by intro k' rv' hx; simp [lookupA] at hx) p.1 rv
        exact hn hrv
      have hrvne : rv ≠ v := by
        intro hcon
        rw [hcon, hsome] at hnormrv
        exact hkne hnormrv.symm
      simp [keysGet, hrv, hrvne]
    have h1 : lookupA tri.theset (normVal true v) = Option.none := by
      rw [htri]
      rw [plain_fold_theset_ne r a.keys (normVal true v) rowsD
        (fun p hp => (hrowsDfacts p hp).1)]
      exact hcache
    have h2 : lookupA tri.items v = Option.none := by
      rw [htri]
      rw [plain_fold_items_ne r a.keys v rowsD
        (fun p hp => (hrowsDfacts p hp).2)]
      exact hitems
    refine ⟨?_, h1⟩
    exact default_fold_pres a.keys r.default v tri.lkp tri.items (Or.inl h2)

theorem mapM_loop_scal : ∀ (values acc : List Val),
    List.mapM.loop (fun e =>
      match e with
      | PyItem.scal v => Except.ok v
      | PyItem.list _ => (Except.error PyErr.typeError : Except PyErr Val))
      (values.map PyItem.scal) acc = Except.ok (acc.reverse ++ values) := by
  intro values
  induction values with
  | nil =>
    intro acc
    simp only [List.map_nil, List.mapM.loop, List.append_nil]
    rfl
  | cons x xs ih =>
    intro acc
    simp only [List.map_cons, List.mapM.loop, ih]
    simp only [List.reverse_cons, List.append_assoc, List.singleton_append]
    rfl

theorem getVals_scal (values : List Val) :
    getValsNonList (PyVal.list (values.map PyItem.scal)) = Except.ok values := by
  unfold getValsNonList
  show List.mapM _ _ = _
  rw [List.mapM, mapM_loop_scal]
  rfl

theorem lookupA_map_str (m : List (Val × String)) (v : Val) :
    lookupA (m.map (fun kv => (kv.1, OutAtom.str kv.2))) v =
      Option.map OutAtom.str (lookupA m v) := by
  induction m with
  | nil => rfl
  | cons p m ih =>
    obtain ⟨k', v'⟩ := p
    by_cases h : k' = v <;> simp [lookupA, h, ih]

theorem fill_defaults_mem (d : OutAtom) (v : Val) :
    ∀ (vals : List Val) (ls : List (Val × OutAtom)),
      ((v ∈ vals ∧ (lookupA ls v = Option.none ∨ lookupA ls v = some d)) ∨
       lookupA ls v = some d) →
      lookupA (vals.foldl (fun ls k =>
        match lookupA ls k with
        | some _ => ls
        | Option.none => setA ls k d) ls) v = some d := by
  intro vals
  induction vals with
  | nil =>
    intro ls h
    rcases h with ⟨hmem, _⟩ | hd
    · exact absurd hmem (List.not_mem_nil v)
    · exact hd
  | cons x xs ih =>
    intro ls h
    rw [List.foldl_cons]
    apply ih
    rcases h with ⟨hmem, hdisj⟩ | hd
    · rcases List.mem_cons.mp hmem with hx | hxs
      · subst hx
        right
        rcases hdisj with hn | hs
        · simp only [hn]
          exact lookupA_setA_self _ _ _
        · simp only [hs]
      · left
        refine ⟨hxs, ?_⟩
        cases hls : lookupA ls x with
        | some a => exact hdisj
        | none =>
          rw [lookupA_setA_cases]
          by_cases hvx : v = x
          · simp [hvx]
          · rw [if_neg hvx]
            exact hdisj
    · right
      cases hls : lookupA ls x with
      | some a => exact hd
      | none =>
        rw [lookupA_setA_cases]
        by_cases hvx : v = x
        · simp [hvx]
        · rw [if_neg hvx]; exact hd

/-- Claim C7: in any request list, every requested key with no matching row
resolves to the configured default label in the `bulk` result (no exception:
the call returns `Except.ok`), and that key is not entered into `theset` as a
resolved label. -/
theorem unknown_key_default_not_cached (r : Represent) (t : Table) (s : RState)
    (values : List Val) (v : Val)
    (htab : r.table = some t) (hka : t.keyAttrMissing = false)
    (hh : r.hierarchy = false) (hlt : r.list_type = false)
    (hvn : v ≠ Val.vnone) (hv : v ∈ values)
    (hcache : lookupA s.theset (normVal true v) = Option.none)
    (hnorow : ∀ row ∈ t.rows, row.key ≠ normVal true v) :
    ∃ labels s₁,
      r.bulk s (PyVal.list (values.map PyItem.scal)) Option.none true false =
        Except.ok (labels, s₁) ∧
      lookupA labels v = some (OutAtom.str r.default) ∧
      lookupA s₁.theset (normVal true v) = Option.none := by
  obtain ⟨hitems, htheset⟩ :=
    lookup_missing_general r t s values v htab hka hh hvn hcache hnorow
  have hvals := getVals_scal values
  have hne : values.isEmpty = false := by
    cases values with
    | nil => exact absurd hv (List.not_mem_nil v)
    | cons a l => rfl
  unfold Represent.bulk
  simp only [hlt, hvals, Bool.false_and, Bool.and_false, Bool.false_eq_true,
    if_false, hne]
  refine ⟨_, _, rfl, ?_, htheset⟩
  rw [lookupA_setA_ne _ _ _ _ hvn]
  apply fill_defaults_mem
  left
  refine ⟨hv, ?_⟩
  rw [lookupA_map_str]
  rcases hitems with hn | hs
  · rw [hn]; exact Or.inl rfl
  · rw [hs]; exact Or.inr rfl


/-- Witness for C7: requesting [1, 999] where 999 has no row. -/
theorem unknown_key_default_not_cached_witness :
    Val.vint 999 ∈ [Val.vint 1, Val.vint 999] ∧
    (∃ labels s₁,
      rBasic.bulk RState.empty
          (PyVal.list ([Val.vint 1, Val.vint 999].map PyItem.scal))
          Option.none true false = Except.ok (labels, s₁) ∧
      lookupA labels (Val.vint 999) = some (OutAtom.str "Unknown") ∧
      lookupA s₁.theset (Val.vint 999) = Option.none) :=
  ⟨by decide,
   unknown_key_default_not_cached rBasic tabBasic RState.empty
     [Val.vint 1, Val.vint 999] (Val.vint 999) rfl rfl rfl rfl (by decide)
     (by decide) rfl (by decide)⟩
